import Mathlib

/-!
Shallow embedding of `src/data/accumulator.py` (class `TrainingDataAccumulator`)
from the apartment-rental MLOps repository.

A pandas DataFrame is modelled as an ordered list of column names together with
an ordered list of rows; each cell is a `Val` (NA, integer, or string).
Persistent storage (the CSV files at `base_training_path` and
`accumulated_path`) is modelled as an association list from path to table; a
read finds the first binding, a write prepends a binding (overwrite by
shadowing).  Python exceptions are modelled with `Except PdError`:
`pd.read_csv` of a missing file raises `FileNotFoundError`,
`drop_duplicates(subset=['id'])` on a frame without an `id` column raises
`KeyError`, and integer division by zero raises `ZeroDivisionError`.

Pandas behaviours that matter here and are modelled faithfully:
- `pd.concat([a, b], ignore_index=True)` takes the union of the columns (the
  first frame's columns, then the new columns of the second in order) and
  fills missing cells with NaN;
- `drop_duplicates(subset=['id'], keep last)` keeps, for every `id` value,
  only the last row carrying it (NaN ids compare equal to each other);
- selecting a list of columns keeps the row count and reindexes each row.
-/

namespace ApartmentRental

/-- A cell value: NaN/NA, an integer, or a string. -/
inductive Val where
  | na : Val
  | int : Int → Val
  | str : String → Val
deriving DecidableEq, Repr

/-- A data frame: ordered column names and ordered rows of cells. -/
structure DF where
  cols : List String
  rows : List (List Val)
deriving DecidableEq, Repr

/-- Index of the first occurrence of a column name. -/
def idxOf? (c : String) : List String → Option Nat
  | [] => none
  | d :: ds => if d = c then some 0 else (idxOf? c ds).map (· + 1)

/-- The i-th cell of a row, NA when out of range. -/
def nthD : List Val → Nat → Val
  | [], _ => .na
  | v :: _, 0 => v
  | _ :: vs, n + 1 => nthD vs n

/-- The cell of row `r` (laid out along `cols`) at column `c`; NA when the
column is absent (this is how `pd.concat` fills missing columns). -/
def cellOf (cols : List String) (r : List Val) (c : String) : Val :=
  match idxOf? c cols with
  | some i => nthD r i
  | none => .na

/-- Rearrange a row from layout `oldCols` to layout `newCols`. -/
def reindexRow (oldCols : List String) (r : List Val) (newCols : List String) : List Val :=
  newCols.map (cellOf oldCols r)

/-- Column selection, `df[cs]`. -/
def selectCols (df : DF) (cs : List String) : DF :=
  ⟨cs, df.rows.map (fun r => reindexRow df.cols r cs)⟩

/-- Concatenation `pd.concat([a, b], ignore_index=True)`: outer union of columns (first
frame's columns first, then the second frame's new columns in order), rows of
`a` then rows of `b`, missing cells filled with NA. -/
def concatOuter (a b : DF) : DF :=
  let cols := a.cols ++ b.cols.filter (fun c => ¬ (c ∈ a.cols))
  ⟨cols,
   a.rows.map (fun r => reindexRow a.cols r cols)
     ++ b.rows.map (fun r => reindexRow b.cols r cols)⟩

/-- Keep a row only when no later row has the same key (`keep last`). -/
def dropDupLastAux (f : List Val → Val) : List (List Val) → List (List Val)
  | [] => []
  | r :: rs =>
    if rs.any (fun r2 => f r2 = f r) then dropDupLastAux f rs
    else r :: dropDupLastAux f rs

/-- Deduplication `df.drop_duplicates(subset=[key], keep=last)` assuming `key ∈ df.cols`. -/
def dropDupLast (df : DF) (key : String) : DF :=
  ⟨df.cols, dropDupLastAux (fun r => cellOf df.cols r key) df.rows⟩

/-- Persistent storage: an association list from file path to stored table. -/
abbrev Storage := List (String × DF)

/-- Read the table stored at path `p`, if any (`pd.read_csv` succeeds iff
this is `some`; `Path.exists()` iff `isSome`). -/
def readDF : Storage → String → Option DF
  | [], _ => none
  | (q, df) :: rest, p => if q = p then some df else readDF rest p

/-- Persisting `df.to_csv(p)`: store `df` at path `p` (overwrite by shadowing). -/
def writeDF (st : Storage) (p : String) (df : DF) : Storage :=
  (p, df) :: st

/-- The Python exceptions that the accumulator's code paths can raise. -/
inductive PdError where
  | fileNotFound : String → PdError
  | keyError : String → PdError
  | zeroDivision : PdError
deriving DecidableEq, Repr

instance {ε α : Type} [DecidableEq ε] [DecidableEq α] : DecidableEq (Except ε α) := fun x y =>
  match x, y with
  | .ok a, .ok b =>
    if h : a = b then .isTrue (by rw [h])
    else .isFalse (by intro hc; cases hc; exact h rfl)
  | .ok _, .error _ => .isFalse (by intro hc; cases hc)
  | .error _, .ok _ => .isFalse (by intro hc; cases hc)
  | .error e, .error e2 =>
    if h : e = e2 then .isTrue (by rw [h])
    else .isFalse (by intro hc; cases hc; exact h rfl)

/-- Lines 15-20 of `accumulator.py`: load the accumulated table when its file
exists, otherwise load the base table (`pd.read_csv` raising
`FileNotFoundError` when the base file is missing too). -/
def loadAccumulated (st : Storage) (basePath accPath : String) : Except PdError DF :=
  match readDF st accPath with
  | some df => .ok df
  | none =>
    match readDF st basePath with
    | some df => .ok df
    | none => .error (.fileNotFound basePath)

/-- Lines 23-24: the columns of the incoming frame that are kept for
training — everything except `price_preds` and `price_diff`. -/
def trainingCols (daily : DF) : List String :=
  daily.cols.filter (fun c => ¬ (c ∈ ["price_preds", "price_diff"]))

/-- The dict returned by `add_daily_predictions`. -/
structure MergeSummary where
  added_rows : Nat
  duplicates_removed : Nat
  final_size : Nat
deriving DecidableEq, Repr

/-- Merge operation `TrainingDataAccumulator.add_daily_predictions(daily_df)`: load the
accumulated (or base) table, strip prediction columns from the incoming
frame, concatenate, deduplicate by `id` keeping the last occurrence, persist,
and return the summary.  `drop_duplicates(subset=['id'])` raises `KeyError`
when the concatenated frame has no `id` column; the `except` clause re-raises
every exception. -/
def add_daily_predictions (st : Storage) (basePath accPath : String) (daily_df : DF) :
    Except PdError (Storage × MergeSummary) :=
  match loadAccumulated st basePath accPath with
  | .error e => .error e
  | .ok accumulated_df =>
    let daily_training := selectCols daily_df (trainingCols daily_df)
    let combined_df := concatOuter accumulated_df daily_training
    if "id" ∈ combined_df.cols then
      let deduplicated_df := dropDupLast combined_df "id"
      .ok (writeDF st accPath deduplicated_df,
           ⟨daily_training.rows.length,
            combined_df.rows.length - deduplicated_df.rows.length,
            deduplicated_df.rows.length⟩)
    else
      .error (.keyError "id")

/-- Reset operation `TrainingDataAccumulator.reset_accumulated_data()`: copy the base table
over the accumulated table and return its row count; no `try`, so a missing
base file propagates `FileNotFoundError`. -/
def reset_accumulated_data (st : Storage) (basePath accPath : String) :
    Except PdError (Storage × Nat) :=
  match readDF st basePath with
  | some base_df => .ok (writeDF st accPath base_df, base_df.rows.length)
  | none => .error (.fileNotFound basePath)

/-- The stats dict built by `get_training_stats`. -/
structure TrainingStats where
  base_size : Nat
  accumulated_size : Nat
  growth : Int
  growth_percentage : Rat
deriving DecidableEq, Repr

/-- The body of the `try` block of `get_training_stats` (lines 63-82): when
the accumulated file exists, read both tables and build the stats dict —
Python raises `ZeroDivisionError` on the `growth_percentage` division when
the base table has zero rows; when the accumulated file does not exist,
return `None` normally. -/
def statsCore (st : Storage) (basePath accPath : String) :
    Except PdError (Option TrainingStats) :=
  match readDF st accPath with
  | some accumulated_df =>
    match readDF st basePath with
    | some base_df =>
      if base_df.rows.length = 0 then .error .zeroDivision
      else
        .ok (some
          { base_size := base_df.rows.length
            accumulated_size := accumulated_df.rows.length
            growth := (accumulated_df.rows.length : Int) - (base_df.rows.length : Int)
            growth_percentage :=
              (((accumulated_df.rows.length : Int) - (base_df.rows.length : Int) : Int) : Rat)
                / ((base_df.rows.length : Int) : Rat) * 100 })
    | none => .error (.fileNotFound basePath)
  | none => .ok none

/-- Stats operation `TrainingDataAccumulator.get_training_stats()`: the `try` body wrapped in
`except Exception: return None` (lines 83-85) — every exception is caught and
`None` is returned. -/
def get_training_stats (st : Storage) (basePath accPath : String) : Option TrainingStats :=
  match statsCore st basePath accPath with
  | .ok r => r
  | .error _ => none

/-! ### Helper lemmas about the data-frame operations -/

theorem idxOf?_isSome_of_mem {c : String} : ∀ {l : List String}, c ∈ l → (idxOf? c l).isSome := by
  intro l
  induction l with
  | nil => intro h; cases h
  | cons d ds ih =>
    intro h
    by_cases hdc : d = c
    · simp [idxOf?, hdc]
    · have hcds : c ∈ ds := by
        rcases List.mem_cons.mp h with h1 | h1
        · exact absurd h1.symm hdc
        · exact h1
      simp only [idxOf?, if_neg hdc]
      simpa using ih hcds

theorem cellOf_reindexRow (oldCols : List String) (r : List Val) :
    ∀ (newCols : List String) (c : String), c ∈ newCols →
      cellOf newCols (reindexRow oldCols r newCols) c = cellOf oldCols r c := by
  intro newCols
  induction newCols with
  | nil => intro c hc; cases hc
  | cons d ds ih =>
    intro c hc
    by_cases hdc : d = c
    · subst hdc
      simp [cellOf, idxOf?, reindexRow, nthD]
    · have hcds : c ∈ ds := by
        rcases List.mem_cons.mp hc with h1 | h1
        · exact absurd h1.symm hdc
        · exact h1
      have h2 := ih c hcds
      obtain ⟨i, hi⟩ := Option.isSome_iff_exists.mp (idxOf?_isSome_of_mem hcds)
      simp only [cellOf, idxOf?, if_neg hdc, hi, Option.map_some', reindexRow,
        List.map_cons] at h2 ⊢
      simpa [nthD] using h2

theorem mem_of_mem_dropDupLastAux {f : List Val → Val} :
    ∀ {l : List (List Val)} {r : List Val}, r ∈ dropDupLastAux f l → r ∈ l := by
  intro l
  induction l with
  | nil => intro r h; cases h
  | cons a t ih =>
    intro r h
    simp only [dropDupLastAux] at h
    split at h
    · exact List.mem_cons_of_mem a (ih h)
    · rcases List.mem_cons.mp h with h1 | h1
      · exact h1 ▸ List.mem_cons_self a t
      · exact List.mem_cons_of_mem a (ih h1)

theorem pairwise_dropDupLastAux (f : List Val → Val) :
    ∀ l : List (List Val), (dropDupLastAux f l).Pairwise (fun a b => f a ≠ f b) := by
  intro l
  induction l with
  | nil => exact List.Pairwise.nil
  | cons a t ih =>
    simp only [dropDupLastAux]
    split
    · exact ih
    · refine List.Pairwise.cons ?_ ih
      intro b hb hfab
      rename_i hany
      have hbt : b ∈ t := mem_of_mem_dropDupLastAux hb
      exact hany (List.any_eq_true.mpr ⟨b, hbt, by simp [hfab]⟩)

theorem length_dropDupLastAux_le (f : List Val → Val) :
    ∀ l : List (List Val), (dropDupLastAux f l).length ≤ l.length := by
  intro l
  induction l with
  | nil => exact Nat.le_refl 0
  | cons a t ih =>
    simp only [dropDupLastAux]
    split
    · exact Nat.le_succ_of_le ih
    · simpa using Nat.succ_le_succ ih

theorem dropDupLastAux_eq_self (f : List Val → Val) :
    ∀ l : List (List Val), (l.map f).Nodup → dropDupLastAux f l = l := by
  intro l
  induction l with
  | nil => intro _; rfl
  | cons a t ih =>
    intro hnd
    rw [List.map_cons, List.nodup_cons] at hnd
    have hnotmem : f a ∉ t.map f := hnd.1
    have hany : (t.any fun r2 => f r2 = f a) = false := by
      rw [List.any_eq_false]
      intro b hb
      simp only [decide_eq_true_eq]
      intro hfb
      exact hnotmem (List.mem_map.mpr ⟨b, hb, hfb⟩)
    simp only [dropDupLastAux, hany, Bool.false_eq_true, if_false, ih hnd.2]

/-- The last row of `l` whose `f`-key is `x`, if any. -/
def lastKey? (f : List Val → Val) (x : Val) : List (List Val) → Option (List Val)
  | [] => none
  | a :: t =>
    match lastKey? f x t with
    | some r => some r
    | none => if f a = x then some a else none

theorem lastKey?_key {f : List Val → Val} {x : Val} :
    ∀ {l : List (List Val)} {r : List Val}, lastKey? f x l = some r → f r = x := by
  intro l
  induction l with
  | nil => intro r h; cases h
  | cons a t ih =>
    intro r h
    cases hl : lastKey? f x t with
    | some r2 =>
      simp only [lastKey?, hl] at h
      cases h
      exact ih hl
    | none =>
      simp only [lastKey?, hl] at h
      by_cases hfa : f a = x
      · rw [if_pos hfa] at h
        cases h
        exact hfa
      · rw [if_neg hfa] at h
        cases h

theorem lastKey?_isSome_of_mem {f : List Val → Val} {x : Val} :
    ∀ {l : List (List Val)} {a : List Val}, a ∈ l → f a = x → (lastKey? f x l).isSome := by
  intro l
  induction l with
  | nil => intro a h; cases h
  | cons b t ih =>
    intro a ha hfa
    cases hl : lastKey? f x t with
    | some r => simp [lastKey?, hl]
    | none =>
      simp only [lastKey?, hl]
      rcases List.mem_cons.mp ha with h1 | h1
      · subst h1
        rw [if_pos hfa]
        simp
      · have h2 := ih h1 hfa
        rw [hl] at h2
        simp at h2

theorem mem_dropDupLastAux_of_lastKey {f : List Val → Val} {x : Val} :
    ∀ {l : List (List Val)} {r : List Val},
      lastKey? f x l = some r → r ∈ dropDupLastAux f l := by
  intro l
  induction l with
  | nil => intro r h; cases h
  | cons a t ih =>
    intro r h
    cases hl : lastKey? f x t with
    | some r2 =>
      simp only [lastKey?, hl] at h
      cases h
      simp only [dropDupLastAux]
      split
      · exact ih hl
      · exact List.mem_cons_of_mem a (ih hl)
    | none =>
      simp only [lastKey?, hl] at h
      by_cases hfa : f a = x
      · rw [if_pos hfa] at h
        cases h
        have hany : (t.any fun r2 => f r2 = f a) = false := by
          rw [List.any_eq_false]
          intro b hb
          simp only [decide_eq_true_eq]
          intro hfb
          have h3 := lastKey?_isSome_of_mem hb (hfb.trans hfa)
          rw [hl] at h3
          simp at h3
        simp only [dropDupLastAux, hany, Bool.false_eq_true, if_false]
        exact List.mem_cons_self a (dropDupLastAux f t)
      · rw [if_neg hfa] at h
        cases h

theorem lastKey?_append {f : List Val → Val} {x : Val} :
    ∀ (A B : List (List Val)),
      lastKey? f x (A ++ B)
        = match lastKey? f x B with
          | some r => some r
          | none => lastKey? f x A := by
  intro A B
  induction A with
  | nil =>
    cases h : lastKey? f x B <;> simp [h, lastKey?]
  | cons a t ih =>
    simp only [List.cons_append, lastKey?, List.append_eq]
    rw [ih]
    cases h : lastKey? f x B <;> cases h2 : lastKey? f x t <;> simp [h, h2]

theorem lastKey?_map {g f : List Val → Val} {x : Val} (m : List Val → List Val)
    (hgm : ∀ a, g (m a) = f a) :
    ∀ l : List (List Val), lastKey? g x (l.map m) = (lastKey? f x l).map m := by
  intro l
  induction l with
  | nil => rfl
  | cons a t ih =>
    simp only [List.map_cons, lastKey?, ih]
    cases h : lastKey? f x t with
    | some r => simp
    | none => simp [hgm a]

theorem readDF_writeDF (st : Storage) (p q : String) (df : DF) :
    readDF (writeDF st p df) q = if p = q then some df else readDF st q := rfl

theorem concatOuter_cols (a b : DF) :
    (concatOuter a b).cols = a.cols ++ b.cols.filter (fun c => ¬ (c ∈ a.cols)) := rfl

theorem mem_concatOuter_cols_right {c : String} (a b : DF) (h : c ∈ b.cols) :
    c ∈ (concatOuter a b).cols := by
  rw [concatOuter_cols, List.mem_append]
  by_cases hA : c ∈ a.cols
  · exact Or.inl hA
  · exact Or.inr (List.mem_filter.mpr ⟨h, by simpa using hA⟩)

theorem mem_concatOuter_cols_left {c : String} (a b : DF) (h : c ∈ a.cols) :
    c ∈ (concatOuter a b).cols := by
  rw [concatOuter_cols, List.mem_append]
  exact Or.inl h

theorem concatOuter_rows_length (a b : DF) :
    (concatOuter a b).rows.length = a.rows.length + b.rows.length := by
  simp [concatOuter]

theorem selectCols_rows_length (df : DF) (cs : List String) :
    (selectCols df cs).rows.length = df.rows.length := by
  simp [selectCols]

theorem mem_trainingCols {c : String} (daily : DF) :
    c ∈ trainingCols daily ↔ (c ∈ daily.cols ∧ c ≠ "price_preds" ∧ c ≠ "price_diff") := by
  simp only [trainingCols, List.mem_filter, decide_not, Bool.not_eq_true']
  constructor
  · rintro ⟨h1, h2⟩
    simp only [decide_eq_false_iff_not, List.mem_cons, List.not_mem_nil] at h2
    push_neg at h2
    exact ⟨h1, h2.1, h2.2.1⟩
  · rintro ⟨h1, h2, h3⟩
    refine ⟨h1, ?_⟩
    simp [h2, h3]

/-- Anatomy of a successful `add_daily_predictions` call. -/
theorem merge_ok_elim {st : Storage} {bp ap : String} {daily : DF} {st' : Storage}
    {s : MergeSummary}
    (hok : add_daily_predictions st bp ap daily = .ok (st', s)) :
    ∃ L, loadAccumulated st bp ap = .ok L ∧
      "id" ∈ (concatOuter L (selectCols daily (trainingCols daily))).cols ∧
      st' = writeDF st ap
          (dropDupLast (concatOuter L (selectCols daily (trainingCols daily))) "id") ∧
      s = ⟨(selectCols daily (trainingCols daily)).rows.length,
           (concatOuter L (selectCols daily (trainingCols daily))).rows.length
             - (dropDupLast (concatOuter L (selectCols daily (trainingCols daily))) "id").rows.length,
           (dropDupLast (concatOuter L (selectCols daily (trainingCols daily))) "id").rows.length⟩ := by
  unfold add_daily_predictions at hok
  cases hload : loadAccumulated st bp ap with
  | error e => rw [hload] at hok; cases hok
  | ok L =>
    rw [hload] at hok
    simp only at hok
    split at hok
    · refine ⟨L, rfl, by assumption, ?_, ?_⟩
      · exact (Prod.mk.injEq _ _ _ _ ▸ (Except.ok.injEq _ _ ▸ hok)).1.symm
      · exact (Prod.mk.injEq _ _ _ _ ▸ (Except.ok.injEq _ _ ▸ hok)).2.symm
    · cases hok

/-! ### Concrete tables used by witnesses and counterexamples -/

/-- Scenario A base table: `[{id:1, price:1000}, {id:2, price:1200}]`. -/
def baseA : DF := ⟨["id", "price"], [[.int 1, .int 1000], [.int 2, .int 1200]]⟩

def stA : Storage := [("base", baseA)]

/-- Scenario A incoming frame, with a `price_preds` prediction column. -/
def dailyA : DF :=
  ⟨["id", "price", "price_preds"],
   [[.int 2, .int 1250, .int 1230], [.int 3, .int 900, .int 890]]⟩

/-- Scenario A expected post-merge table. -/
def mergedA : DF :=
  ⟨["id", "price"], [[.int 1, .int 1000], [.int 2, .int 1250], [.int 3, .int 900]]⟩

def stA' : Storage := [("acc", mergedA), ("base", baseA)]

def sumA : MergeSummary := ⟨2, 1, 3⟩

/-- An accumulated table with an `id` column, used when the incoming frame
lacks one. -/
def accQ : DF := ⟨["id", "price"], [[.int 1, .int 1000]]⟩

def stQ : Storage := [("acc", accQ)]

/-- An empty-base storage: the base table exists but has zero rows. -/
def baseZ : DF := ⟨["id"], []⟩

def accZ : DF := ⟨["id"], [[.int 1]]⟩

def stZ : Storage := [("base", baseZ), ("acc", accZ)]

/-! ### Claim theorems -/

/-- Claim C2: after a successful `merge()`, the persisted accumulated table
contains no two records with the same `id` — the rows of the stored table
have pairwise-distinct `id` cells. -/
theorem C2_unique_ids (st : Storage) (bp ap : String) (daily : DF) (st' : Storage)
    (s : MergeSummary) (T : DF)
    (hok : add_daily_predictions st bp ap daily = .ok (st', s))
    (hT : readDF st' ap = some T) :
    T.rows.Pairwise (fun r1 r2 => cellOf T.cols r1 "id" ≠ cellOf T.cols r2 "id") := by
  obtain ⟨L, hL, hid, hst, hs⟩ := merge_ok_elim hok
  subst hst
  rw [readDF_writeDF, if_pos rfl] at hT
  cases hT
  simpa [dropDupLast] using
    pairwise_dropDupLastAux
      (fun r => cellOf (concatOuter L (selectCols daily (trainingCols daily))).cols r "id")
      (concatOuter L (selectCols daily (trainingCols daily))).rows

theorem C2_witness :
    mergedA.rows.Pairwise
      (fun r1 r2 => cellOf mergedA.cols r1 "id" ≠ cellOf mergedA.cols r2 "id") :=
  C2_unique_ids stA "base" "acc" dailyA stA' sumA mergedA (by decide) (by decide)

/-- Claim C3: for every successful merge, the summary satisfies
`final_size = previous_accumulated_size + added_rows - duplicates_removed`,
where the previous size is the row count of the loaded (accumulated-or-base)
table, `added_rows` counts incoming rows after column stripping and before
dedup, and `duplicates_removed` is pre-dedup size minus post-dedup size. -/
theorem C3_summary_arithmetic (st : Storage) (bp ap : String) (daily : DF)
    (st' : Storage) (s : MergeSummary) (L : DF)
    (hL : loadAccumulated st bp ap = .ok L)
    (hok : add_daily_predictions st bp ap daily = .ok (st', s)) :
    (s.final_size : Int)
      = (L.rows.length : Int) + (s.added_rows : Int) - (s.duplicates_removed : Int) := by
  obtain ⟨L2, hL2, hid, hst, hs⟩ := merge_ok_elim hok
  rw [hL] at hL2
  cases hL2
  subst hs
  have hle : (dropDupLast (concatOuter L (selectCols daily (trainingCols daily))) "id").rows.length
      ≤ (concatOuter L (selectCols daily (trainingCols daily))).rows.length := by
    simpa [dropDupLast] using
      length_dropDupLastAux_le
        (fun r => cellOf (concatOuter L (selectCols daily (trainingCols daily))).cols r "id")
        (concatOuter L (selectCols daily (trainingCols daily))).rows
  have hcomb := concatOuter_rows_length L (selectCols daily (trainingCols daily))
  dsimp only
  omega

theorem C3_witness :
    (sumA.final_size : Int)
      = (baseA.rows.length : Int) + (sumA.added_rows : Int) - (sumA.duplicates_removed : Int) :=
  C3_summary_arithmetic stA "base" "acc" dailyA stA' sumA baseA (by decide) (by decide)

/-- Claim C7: `reset()` overwrites the accumulated table with an exact copy
of the base table and returns its row count, and doing it twice yields the
same accumulated table as doing it once. -/
theorem C7_reset_idempotent (st : Storage) (bp ap : String) (B : DF)
    (h : readDF st bp = some B) :
    reset_accumulated_data st bp ap = .ok (writeDF st ap B, B.rows.length) ∧
    readDF (writeDF st ap B) ap = some B ∧
    reset_accumulated_data (writeDF st ap B) bp ap
      = .ok (writeDF (writeDF st ap B) ap B, B.rows.length) ∧
    readDF (writeDF (writeDF st ap B) ap B) ap = readDF (writeDF st ap B) ap := by
  have h2 : readDF (writeDF st ap B) bp = some B := by
    rw [readDF_writeDF]
    by_cases hab : ap = bp
    · rw [if_pos hab]
    · rw [if_neg hab]
      exact h
  refine ⟨?_, ?_, ?_, ?_⟩
  · simp [reset_accumulated_data, h]
  · simp [readDF_writeDF]
  · simp [reset_accumulated_data, h2]
  · simp [readDF_writeDF]

theorem C7_witness :
    reset_accumulated_data stA "base" "acc" = .ok (writeDF stA "acc" baseA, baseA.rows.length) ∧
    readDF (writeDF stA "acc" baseA) "acc" = some baseA ∧
    reset_accumulated_data (writeDF stA "acc" baseA) "base" "acc"
      = .ok (writeDF (writeDF stA "acc" baseA) "acc" baseA, baseA.rows.length) ∧
    readDF (writeDF (writeDF stA "acc" baseA) "acc" baseA) "acc"
      = readDF (writeDF stA "acc" baseA) "acc" :=
  C7_reset_idempotent stA "base" "acc" baseA (by decide)

/-- Claim C10: `stats()` divides by the base table's row count with no zero
guard: when both tables are readable it returns the stats value exactly when
the base table is non-empty, and returns the `None` sentinel (via the catch of
the `ZeroDivisionError`) when the base table has zero rows. -/
theorem C10_stats_zero_base (st : Storage) (bp ap : String) (A B : DF)
    (hA : readDF st ap = some A) (hB : readDF st bp = some B) :
    get_training_stats st bp ap
      = if B.rows.length = 0 then none
        else some ⟨B.rows.length, A.rows.length,
                   (A.rows.length : Int) - (B.rows.length : Int),
                   (((A.rows.length : Int) - (B.rows.length : Int) : Int) : Rat)
                     / ((B.rows.length : Int) : Rat) * 100⟩ := by
  simp only [get_training_stats, statsCore, hA, hB]
  by_cases h0 : B.rows.length = 0
  · simp [h0]
  · simp [h0]

theorem C10_witness : get_training_stats stZ "base" "acc" = none := by
  have h := C10_stats_zero_base stZ "base" "acc" accZ baseZ (by decide) (by decide)
  simpa [baseZ] using h

theorem dropDupLast_cols (df : DF) (key : String) : (dropDupLast df key).cols = df.cols := rfl

theorem strip_not_mem_trainingCols (daily : DF) :
    "price_preds" ∉ trainingCols daily ∧ "price_diff" ∉ trainingCols daily := by
  constructor <;> intro h
  · rcases (mem_trainingCols daily).mp h with ⟨_, h2, _⟩
    exact h2 rfl
  · rcases (mem_trainingCols daily).mp h with ⟨_, _, h3⟩
    exact h3 rfl

/-- Truth exactly on the `ok` branch of an `Except` (the call completed
without raising). -/
def exceptOk {ε α : Type} : Except ε α → Bool
  | .ok _ => true
  | .error _ => false

/-- Claim C9: `merge()` strips the prediction columns only from the incoming
frame, never from the loaded table: a `price_preds` or `price_diff` column
of the loaded (accumulated-or-base) table is carried into the persisted
result. -/
theorem C9_loaded_pred_cols_carried (st : Storage) (bp ap : String) (daily : DF)
    (st' : Storage) (s : MergeSummary) (L T : DF)
    (hL : loadAccumulated st bp ap = .ok L)
    (hok : add_daily_predictions st bp ap daily = .ok (st', s))
    (hT : readDF st' ap = some T) :
    ("price_preds" ∈ L.cols → "price_preds" ∈ T.cols) ∧
    ("price_diff" ∈ L.cols → "price_diff" ∈ T.cols) := by
  obtain ⟨L2, hL2, hid, hst, hs⟩ := merge_ok_elim hok
  rw [hL] at hL2
  cases hL2
  subst hst
  rw [readDF_writeDF, if_pos rfl] at hT
  cases hT
  rw [dropDupLast_cols]
  exact ⟨fun hm => mem_concatOuter_cols_left _ _ hm,
         fun hm => mem_concatOuter_cols_left _ _ hm⟩

/-- A persisted accumulated table that already carries a `price_diff`
column. -/
def accD : DF := ⟨["id", "price_diff"], [[.int 1, .int 50]]⟩

def stD : Storage := [("acc", accD)]

def dailyD : DF := ⟨["id"], [[.int 2]]⟩

def mergedD : DF := ⟨["id", "price_diff"], [[.int 1, .int 50], [.int 2, .na]]⟩

def stD' : Storage := [("acc", mergedD), ("acc", accD)]

theorem C9_witness : "price_diff" ∈ mergedD.cols :=
  (C9_loaded_pred_cols_carried stD "base" "acc" dailyD stD' ⟨1, 0, 2⟩ accD mergedD
    (by decide) (by decide) (by decide)).2 (by decide)

/-- Claim C4 (amended): the columns stripped from the incoming frame are the
code's prediction-output columns `price_preds` and `price_diff`; provided the
loaded table carries neither of them, the persisted post-merge table carries
neither of them, even when the incoming frame does. -/
theorem C4_pred_cols_stripped (st : Storage) (bp ap : String) (daily : DF)
    (st' : Storage) (s : MergeSummary) (L T : DF)
    (hL : loadAccumulated st bp ap = .ok L)
    (hok : add_daily_predictions st bp ap daily = .ok (st', s))
    (hT : readDF st' ap = some T)
    (h1 : "price_preds" ∉ L.cols) (h2 : "price_diff" ∉ L.cols) :
    "price_preds" ∉ T.cols ∧ "price_diff" ∉ T.cols := by
  obtain ⟨L2, hL2, hid, hst, hs⟩ := merge_ok_elim hok
  rw [hL] at hL2
  cases hL2
  subst hst
  rw [readDF_writeDF, if_pos rfl] at hT
  cases hT
  rw [dropDupLast_cols, concatOuter_cols]
  constructor <;> intro hmem <;> rcases List.mem_append.mp hmem with hm | hm
  · exact h1 hm
  · exact (strip_not_mem_trainingCols daily).1 (List.mem_filter.mp hm).1
  · exact h2 hm
  · exact (strip_not_mem_trainingCols daily).2 (List.mem_filter.mp hm).1

/-- A frame whose prediction column is named as in the spec
(`predicted_price`), not as in the code (`price_preds`). -/
def dailyP : DF := ⟨["id", "predicted_price"], [[.int 2, .int 5]]⟩

def accP : DF := ⟨["id"], [[.int 1]]⟩

def stP : Storage := [("acc", accP)]

def mergedP : DF := ⟨["id", "predicted_price"], [[.int 1, .na], [.int 2, .int 5]]⟩

def stP' : Storage := [("acc", mergedP), ("acc", accP)]

theorem C4_counterexample :
    add_daily_predictions stP "base" "acc" dailyP = .ok (stP', ⟨1, 0, 2⟩) ∧
    readDF stP' "acc" = some mergedP ∧
    "predicted_price" ∈ mergedP.cols := by decide

theorem C4_witness : "price_preds" ∉ mergedA.cols ∧ "price_diff" ∉ mergedA.cols :=
  C4_pred_cols_stripped stA "base" "acc" dailyA stA' sumA baseA mergedA
    (by decide) (by decide) (by decide) (by decide) (by decide)

/-- Claim C5 (amended): when neither the accumulated nor the base file
exists, `merge()` raises the read error on the base path (Python's
`FileNotFoundError`, the spec's missing-base failure); when the loaded table
and the incoming frame both lack an `id` column, `drop_duplicates` raises
`KeyError` (the spec's schema failure); but when the loaded table has an
`id` column, `merge()` completes even if the incoming frame lacks one. -/
theorem C5_failure_modes (st : Storage) (bp ap : String) (daily : DF) (L : DF) :
    (readDF st ap = none → readDF st bp = none →
      add_daily_predictions st bp ap daily = .error (.fileNotFound bp)) ∧
    (loadAccumulated st bp ap = .ok L → "id" ∉ L.cols → "id" ∉ daily.cols →
      add_daily_predictions st bp ap daily = .error (.keyError "id")) ∧
    (loadAccumulated st bp ap = .ok L → "id" ∈ L.cols →
      exceptOk (add_daily_predictions st bp ap daily) = true) := by
  refine ⟨?_, ?_, ?_⟩
  · intro h1 h2
    simp [add_daily_predictions, loadAccumulated, h1, h2]
  · intro hL hidL hidD
    have hidTC : "id" ∉ trainingCols daily := fun hm => hidD ((mem_trainingCols daily).mp hm).1
    have hidC : "id" ∉ (concatOuter L (selectCols daily (trainingCols daily))).cols := by
      rw [concatOuter_cols]
      intro hm
      rcases List.mem_append.mp hm with hm1 | hm1
      · exact hidL hm1
      · exact hidTC (List.mem_filter.mp hm1).1
    simp [add_daily_predictions, hL, hidC]
  · intro hL hidL
    have hidC : "id" ∈ (concatOuter L (selectCols daily (trainingCols daily))).cols :=
      mem_concatOuter_cols_left _ _ hidL
    simp [add_daily_predictions, hL, hidC, exceptOk]

/-- Incoming frame with no `id` column, merged into a stored table that has
one: the merge completes instead of raising. -/
def dailyQ : DF := ⟨["price"], [[.int 900]]⟩

def mergedQ : DF := ⟨["id", "price"], [[.int 1, .int 1000], [.na, .int 900]]⟩

def stQ' : Storage := [("acc", mergedQ), ("acc", accQ)]

theorem C5_counterexample :
    add_daily_predictions stQ "base" "acc" dailyQ = .ok (stQ', ⟨1, 0, 2⟩) := by decide

def accNoId : DF := ⟨["price"], [[.int 1]]⟩

def stNoId : Storage := [("acc", accNoId)]

def dailyNoId : DF := ⟨["price"], [[.int 2]]⟩

theorem C5_witness :
    add_daily_predictions ([] : Storage) "base" "acc" dailyA = .error (.fileNotFound "base") ∧
    add_daily_predictions stNoId "base" "acc" dailyNoId = .error (.keyError "id") ∧
    exceptOk (add_daily_predictions stQ "base" "acc" dailyQ) = true :=
  ⟨(C5_failure_modes [] "base" "acc" dailyA baseA).1 (by decide) (by decide),
   (C5_failure_modes stNoId "base" "acc" dailyNoId accNoId).2.1
     (by decide) (by decide) (by decide),
   (C5_failure_modes stQ "base" "acc" dailyQ accQ).2.2 (by decide) (by decide)⟩

/-- Claim C6 (amended): `merge()` and `reset()` propagate their failures to
the caller (their `Except` result carries the error), but `get_training_stats`
never does: whenever its `try` body raises, the handler returns the `None`
sentinel instead. -/
theorem C6_stats_swallows (st : Storage) (bp ap : String) (e : PdError)
    (h : statsCore st bp ap = .error e) :
    get_training_stats st bp ap = none := by
  simp [get_training_stats, h]

theorem C6_counterexample :
    statsCore stQ "base" "acc" = .error (.fileNotFound "base") ∧
    get_training_stats stQ "base" "acc" = none := by decide

theorem C6_witness : get_training_stats stQ "base" "acc" = none :=
  C6_stats_swallows stQ "base" "acc" (.fileNotFound "base") (by decide)

theorem concatOuter_rows_eq (a b : DF) :
    (concatOuter a b).rows
      = a.rows.map (fun q => reindexRow a.cols q (concatOuter a b).cols)
        ++ b.rows.map (fun q => reindexRow b.cols q (concatOuter a b).cols) := rfl

theorem selectCols_rows_eq (df : DF) (cs : List String) :
    (selectCols df cs).rows = df.rows.map (fun q => reindexRow df.cols q cs) := rfl

/-- The `id` column of a concatenation is the `id` column of the first frame
followed by the `id` column of the second, when both frames have one. -/
theorem concatOuter_keys (a b : DF) (hidA : "id" ∈ a.cols) :
    (concatOuter a b).rows.map (fun q => cellOf (concatOuter a b).cols q "id")
      = a.rows.map (fun q => cellOf a.cols q "id")
        ++ b.rows.map (fun q => cellOf b.cols q "id") := by
  have hidC : "id" ∈ (concatOuter a b).cols := mem_concatOuter_cols_left a b hidA
  rw [concatOuter_rows_eq, List.map_append, List.map_map, List.map_map]
  congr 1
  · apply List.map_congr_left
    intro q _
    exact cellOf_reindexRow a.cols q _ "id" hidC
  · apply List.map_congr_left
    intro q _
    exact cellOf_reindexRow b.cols q _ "id" hidC

/-- Column selection keeps the `id` column of every row when `id` is among
the selected columns. -/
theorem selectCols_keys (df : DF) (cs : List String) (hid : "id" ∈ cs) :
    (selectCols df cs).rows.map (fun q => cellOf (selectCols df cs).cols q "id")
      = df.rows.map (fun q => cellOf df.cols q "id") := by
  rw [selectCols_rows_eq, List.map_map]
  apply List.map_congr_left
  intro q _
  exact cellOf_reindexRow df.cols q cs "id" hid

/-- Claim C8 (amended): merging `k` incoming records whose ids are pairwise
distinct and disjoint from the ids of the loaded table — itself free of
duplicate ids — yields `final_size = previous_size + k`, with
`added_rows = k` and `duplicates_removed = 0`. -/
theorem C8_disjoint_ids (st : Storage) (bp ap : String) (daily : DF)
    (st' : Storage) (s : MergeSummary) (L : DF)
    (hL : loadAccumulated st bp ap = .ok L)
    (hok : add_daily_predictions st bp ap daily = .ok (st', s))
    (hidL : "id" ∈ L.cols)
    (hidD : "id" ∈ daily.cols)
    (hndL : (L.rows.map (fun q => cellOf L.cols q "id")).Nodup)
    (hndD : (daily.rows.map (fun q => cellOf daily.cols q "id")).Nodup)
    (hdisj : ∀ x ∈ daily.rows.map (fun q => cellOf daily.cols q "id"),
        x ∉ L.rows.map (fun q => cellOf L.cols q "id")) :
    s.final_size = L.rows.length + daily.rows.length ∧
    s.added_rows = daily.rows.length ∧
    s.duplicates_removed = 0 := by
  obtain ⟨L2, hL2, hid, hst, hs⟩ := merge_ok_elim hok
  rw [hL] at hL2
  cases hL2
  subst hs
  have hidTC : "id" ∈ trainingCols daily :=
    (mem_trainingCols daily).mpr ⟨hidD, by decide, by decide⟩
  have hkeys :
      (concatOuter L (selectCols daily (trainingCols daily))).rows.map
          (fun q => cellOf (concatOuter L (selectCols daily (trainingCols daily))).cols q "id")
        = (L.rows.map fun q => cellOf L.cols q "id")
          ++ (daily.rows.map fun q => cellOf daily.cols q "id") := by
    rw [concatOuter_keys L (selectCols daily (trainingCols daily)) hidL,
        selectCols_keys daily (trainingCols daily) hidTC]
  have hnd :
      ((concatOuter L (selectCols daily (trainingCols daily))).rows.map
          (fun q => cellOf (concatOuter L (selectCols daily (trainingCols daily))).cols q "id")).Nodup := by
    rw [hkeys]
    exact hndL.append hndD (fun a haL haD => hdisj a haD haL)
  have heq :
      dropDupLastAux
          (fun q => cellOf (concatOuter L (selectCols daily (trainingCols daily))).cols q "id")
          (concatOuter L (selectCols daily (trainingCols daily))).rows
        = (concatOuter L (selectCols daily (trainingCols daily))).rows :=
    dropDupLastAux_eq_self _ _ hnd
  have hlen :
      (dropDupLast (concatOuter L (selectCols daily (trainingCols daily))) "id").rows.length
        = L.rows.length + daily.rows.length := by
    simp only [dropDupLast, heq]
    rw [concatOuter_rows_length, selectCols_rows_length]
  refine ⟨hlen, ?_, ?_⟩
  · exact selectCols_rows_length daily (trainingCols daily)
  · dsimp only
    rw [hlen, concatOuter_rows_length, selectCols_rows_length]
    exact Nat.sub_self _

/-- Two incoming records with the same fresh id `7`, disjoint from the
stored id `1`: the claimed `final_size = previous + k` fails (`2 ≠ 1 + 2`). -/
def dailyR : DF := ⟨["id"], [[.int 7], [.int 7]]⟩

def mergedS : DF := ⟨["id", "price"], [[.int 1, .int 1000], [.int 7, .na]]⟩

def stS' : Storage := [("acc", mergedS), ("acc", accQ)]

theorem C8_counterexample :
    add_daily_predictions stQ "base" "acc" dailyR = .ok (stS', ⟨2, 1, 2⟩) ∧
    (⟨2, 1, 2⟩ : MergeSummary).final_size ≠ accQ.rows.length + dailyR.rows.length := by
  decide

def dailyS : DF := ⟨["id"], [[.int 7]]⟩

theorem C8_witness :
    (⟨1, 0, 2⟩ : MergeSummary).final_size = accQ.rows.length + dailyS.rows.length ∧
    (⟨1, 0, 2⟩ : MergeSummary).added_rows = dailyS.rows.length ∧
    (⟨1, 0, 2⟩ : MergeSummary).duplicates_removed = 0 :=
  C8_disjoint_ids stQ "base" "acc" dailyS stS' ⟨1, 0, 2⟩ accQ
    (by decide) (by decide) (by decide) (by decide) (by decide) (by decide) (by decide)

/-- Claim C1: last write wins.  For every successful `merge()`, every id
value `x` occurring in the incoming frame, and `r` the last incoming row
carrying `x`, the persisted table contains the (stripped, reindexed) copy of
`r`: its `id` cell is `x` and it agrees with `r` on every kept training
column — the last occurrence in the order (existing rows, then incoming
rows) wins. -/
theorem C1_last_write_wins (st : Storage) (bp ap : String) (daily : DF)
    (st' : Storage) (s : MergeSummary) (T : DF) (x : Val) (r : List Val)
    (hok : add_daily_predictions st bp ap daily = .ok (st', s))
    (hT : readDF st' ap = some T)
    (hidD : "id" ∈ daily.cols)
    (hlast : lastKey? (fun q => cellOf daily.cols q "id") x daily.rows = some r) :
    reindexRow (trainingCols daily) (reindexRow daily.cols r (trainingCols daily)) T.cols
        ∈ T.rows ∧
    cellOf T.cols
        (reindexRow (trainingCols daily) (reindexRow daily.cols r (trainingCols daily)) T.cols)
        "id" = x ∧
    (∀ c ∈ trainingCols daily,
      cellOf T.cols
          (reindexRow (trainingCols daily) (reindexRow daily.cols r (trainingCols daily)) T.cols)
          c = cellOf daily.cols r c) := by
  obtain ⟨L, hL, hid, hst, hs⟩ := merge_ok_elim hok
  subst hst
  rw [readDF_writeDF, if_pos rfl] at hT
  cases hT
  rw [dropDupLast_cols]
  have hidTC : "id" ∈ trainingCols daily :=
    (mem_trainingCols daily).mpr ⟨hidD, by decide, by decide⟩
  have hidCC : "id" ∈ (concatOuter L (selectCols daily (trainingCols daily))).cols :=
    mem_concatOuter_cols_right L (selectCols daily (trainingCols daily)) hidTC
  have hcomp : ∀ q : List Val,
      cellOf (concatOuter L (selectCols daily (trainingCols daily))).cols
          (reindexRow (trainingCols daily) (reindexRow daily.cols q (trainingCols daily))
            (concatOuter L (selectCols daily (trainingCols daily))).cols)
          "id"
        = cellOf daily.cols q "id" := by
    intro q
    rw [cellOf_reindexRow (trainingCols daily) _ _ "id" hidCC,
        cellOf_reindexRow daily.cols q (trainingCols daily) "id" hidTC]
  have hrows :
      (concatOuter L (selectCols daily (trainingCols daily))).rows
        = L.rows.map
            (fun q => reindexRow L.cols q
              (concatOuter L (selectCols daily (trainingCols daily))).cols)
          ++ daily.rows.map
            (fun q => reindexRow (trainingCols daily)
              (reindexRow daily.cols q (trainingCols daily))
              (concatOuter L (selectCols daily (trainingCols daily))).cols) := by
    rw [concatOuter_rows_eq, selectCols_rows_eq, List.map_map]
    rfl
  have hmap :=
    lastKey?_map
      (g := fun q => cellOf (concatOuter L (selectCols daily (trainingCols daily))).cols q "id")
      (f := fun q => cellOf daily.cols q "id") (x := x)
      (fun q => reindexRow (trainingCols daily) (reindexRow daily.cols q (trainingCols daily))
        (concatOuter L (selectCols daily (trainingCols daily))).cols)
      hcomp daily.rows
  have hlastComb :
      lastKey?
          (fun q => cellOf (concatOuter L (selectCols daily (trainingCols daily))).cols q "id")
          x
          (concatOuter L (selectCols daily (trainingCols daily))).rows
        = some (reindexRow (trainingCols daily) (reindexRow daily.cols r (trainingCols daily))
            (concatOuter L (selectCols daily (trainingCols daily))).cols) := by
    rw [hrows, lastKey?_append, hmap, hlast]
    rfl
  have hmem := mem_dropDupLastAux_of_lastKey hlastComb
  have hcells : ∀ c ∈ trainingCols daily,
      cellOf (concatOuter L (selectCols daily (trainingCols daily))).cols
          (reindexRow (trainingCols daily) (reindexRow daily.cols r (trainingCols daily))
            (concatOuter L (selectCols daily (trainingCols daily))).cols)
          c = cellOf daily.cols r c := by
    intro c hc
    have hcCC : c ∈ (concatOuter L (selectCols daily (trainingCols daily))).cols :=
      mem_concatOuter_cols_right L (selectCols daily (trainingCols daily)) hc
    rw [cellOf_reindexRow (trainingCols daily) _ _ c hcCC,
        cellOf_reindexRow daily.cols r (trainingCols daily) c hc]
  refine ⟨?_, ?_, hcells⟩
  · simpa [dropDupLast] using hmem
  · rw [hcells "id" hidTC]
    exact lastKey?_key hlast

theorem C1_witness :
    reindexRow (trainingCols dailyA)
        (reindexRow dailyA.cols [Val.int 2, Val.int 1250, Val.int 1230] (trainingCols dailyA))
        mergedA.cols
      ∈ mergedA.rows ∧
    cellOf mergedA.cols
        (reindexRow (trainingCols dailyA)
          (reindexRow dailyA.cols [Val.int 2, Val.int 1250, Val.int 1230] (trainingCols dailyA))
          mergedA.cols)
        "id" = Val.int 2 ∧
    cellOf mergedA.cols
        (reindexRow (trainingCols dailyA)
          (reindexRow dailyA.cols [Val.int 2, Val.int 1250, Val.int 1230] (trainingCols dailyA))
          mergedA.cols)
        "price" = Val.int 1250 := by
  have h :=
    C1_last_write_wins stA "base" "acc" dailyA stA' sumA mergedA (Val.int 2)
      [Val.int 2, Val.int 1250, Val.int 1230]
      (by decide) (by decide) (by decide) (by decide)
  refine ⟨h.1, h.2.1, ?_⟩
  have h2 := h.2.2 "price" (by decide)
  rw [h2]
  decide

end ApartmentRental
